import Mathlib

/-!
Verification of the netmiko vendor drivers (Juniper JunOS and HP Comware)
against their design specification.

The Python sources embedded here are `netmiko/juniper/juniper.py` and
`netmiko/hp/hp_comware.py`.  The generic `BaseConnection` layer (channel
primitives, base mode state machine, delay-factor selection) is not part of
the analyzed sources, so those collaborators are modelled from the spec as
an abstract device oracle; every definition whose doc comment starts with
"Modelled from the spec" is in that category.  Everything else is a direct
translation of the Python source.
-/

namespace Netmiko

/-! ## Character-list string utilities

Python string operations used by the sources (`in`, `str.split`, regular
expression search of the fixed shapes `pre.*post`) are modelled on the
`List Char` view of `String`. -/

/-- `isPrefixChars pat l` is true iff the character list `pat` is a prefix
of the character list `l` (Python `str.startswith`). -/
def isPrefixChars : List Char → List Char → Bool
  | [], _ => true
  | _ :: _, [] => false
  | a :: as, b :: bs => a == b && isPrefixChars as bs

/-- `containsSub l pat` is true iff `pat` occurs in `l` as a contiguous
substring (Python `pat in l`). -/
def containsSub : List Char → List Char → Bool
  | [], pat => pat.isEmpty
  | l@(_ :: rest), pat => isPrefixChars pat l || containsSub rest pat

/-- `containsSubstr hay pat` is Python `pat in hay` for strings. -/
def containsSubstr (hay pat : String) : Bool :=
  containsSub hay.data pat.data

/-- `searchWild l pre post` is true iff `re.search(pre + ".*" + post, l)`
succeeds on a newline-free line `l`: some occurrence of `pre` is followed,
somewhere to its right, by an occurrence of `post`. -/
def searchWild : List Char → List Char → List Char → Bool
  | l, pre, post =>
    (isPrefixChars pre l && containsSub (l.drop pre.length) post) ||
    match l with
    | [] => false
    | _ :: rest => searchWild rest pre post

/-- `splitOnRet l` is Python `l.split("\n")`: the (always nonempty) list of
newline-free segments of `l`. -/
def splitOnRet : List Char → List (List Char)
  | [] => [[]]
  | c :: rest =>
    match splitOnRet rest with
    | [] => [[]]
    | h :: t => if c == '\n' then [] :: h :: t else (c :: h) :: t

/-- `joinRet` is Python `"\n".join`, the inverse of `splitOnRet`. -/
def joinRet : List (List Char) → List Char
  | [] => []
  | [l] => l
  | l :: ls => l ++ '\n' :: joinRet ls

/-! ## Juniper response sanitizer

Direct translation of `JuniperBase.strip_context_items`
(`netmiko/juniper/juniper.py`, lines 206-232).  The line terminator
`RESPONSE_RETURN` is the base-class value `"\n"`; since it is a single
character, the split is performed character-wise. -/

/-- Modelled from the spec: the configurable line terminator of the
transport layer, `"\n"` for these dialects. -/
def RESPONSE_RETURN : String := "\n"

/-- The fixed shapes `pre.*post` of the regular expressions in
`strings_to_strip`: edit marker and chassis/cluster context markers. -/
def strings_to_strip : List (String × String) :=
  [("[edit", "]"), ("\x7bmaster:", "\x7d"), ("\x7bbackup:", "\x7d"),
   ("\x7bline", "\x7d"), ("\x7bprimary", "\x7d"), ("\x7bsecondary", "\x7d")]

/-- `JuniperBase.strip_context_items`: split the output on the line
terminator; if the last line matches one of the fixed shapes, return the
join of the remaining lines, else return the input unchanged. -/
def strip_context_items (a_string : String) : String :=
  let response_list := splitOnRet a_string.data
  let last_line := response_list.getLastD []
  if strings_to_strip.any fun p => searchWild last_line p.1.data p.2.data then
    String.mk (joinRet response_list.dropLast)
  else
    a_string

/-! ## Session and device model

The transport/channel layer and the remote device are outside the analyzed
sources; they are modelled from the spec as an abstract, possibly failing
oracle over an abstract device-state type.  A `send` failure stands for any
exception raised by the channel while a command is being sent. -/

/-- Modelled from the spec: the live `Session` value.  It holds the base
prompt, the fast-mode flag, the legacy-mode flag and the global delay
factor; per the spec these are explicit fields, never hidden defaults. -/
structure Session where
  fast_cli : Bool
  legacy_mode : Bool
  base_prompt : String
  global_delay_factor : Nat
deriving DecidableEq, Repr

/-- Modelled from the spec: the channel primitive plus prompt detector.
`send st cmd` writes one command and returns the collected response and the
successor device state, or fails (a channel exception); `prompt st` is the
text of a freshly produced prompt, the only mode signal available. -/
structure Device (σ : Type) where
  send : σ → String → Except String (String × σ)
  prompt : σ → String

/-- The errors raised by the analyzed operations.  Python raises
`ValueError` in every case; the spec distinguishes them by role, and the
distinct message texts keep the constructors faithful. -/
inductive NetmikoError where
  | invalidCommitArguments (msg : String)
  | commitFailed (msg : String)
  | modeTransition (msg : String)
  | channel (msg : String)
deriving DecidableEq, Repr

/-- `true` iff the result is an `InvalidCommitArguments` error. -/
def isInvalidCommitArguments : Except NetmikoError String → Bool
  | .error (.invalidCommitArguments _) => true
  | _ => false

/-- `true` iff the result is a `CommitFailedError`. -/
def isCommitFailed : Except NetmikoError String → Bool
  | .error (.commitFailed _) => true
  | _ => false

/-- `true` iff the result is a `ModeTransitionError`. -/
def isModeTransition : Except NetmikoError String → Bool
  | .error (.modeTransition _) => true
  | _ => false

/-! ## Base mode state machine (spec-modelled)

`BaseConnection.check_config_mode`, `BaseConnection.config_mode`,
`BaseConnection.exit_config_mode` and `BaseConnection.select_delay_factor`
are not in the analyzed sources; they are modelled from the spec, section
4.3. -/

/-- Modelled from the spec: `check(check_string) -> bool` is a textual
presence test of the check string in a freshly produced prompt. -/
def base_check_config_mode (d : Device σ) (st : σ) (check_string : String) : Bool :=
  containsSubstr (d.prompt st) check_string

/-- Modelled from the spec: `enter(command, pattern) -> output` sends the
command and transitions to CONFIG; entering is an idempotent no-op when the
session is already in config mode.  Returns the output, the new device
state and the list of channel writes.  The wait-for pattern has no
observable effect in this model and is omitted. -/
def base_config_mode (d : Device σ) (st : σ) (config_command check_string : String) :
    Except String (String × σ) × List String :=
  if base_check_config_mode d st check_string then
    (.ok ("", st), [])
  else
    match d.send st config_command with
    | .error e => (.error e, [config_command])
    | .ok (out, st1) => (.ok (out, st1), [config_command])

/-- Modelled from the spec: `exit(command) -> output` sends the command,
re-checks the mode and raises `ModeTransitionError` if the session is still
in config mode; a no-op outside config mode. -/
def base_exit_config_mode (d : Device σ) (st : σ) (exit_command check_string : String) :
    Except NetmikoError String × σ × List String :=
  if base_check_config_mode d st check_string then
    match d.send st exit_command with
    | .error e => (.error (.channel e), st, [exit_command])
    | .ok (out, st1) =>
      if base_check_config_mode d st1 check_string then
        (.error (.modeTransition "Failed to exit configuration mode"), st1, [exit_command])
      else
        (.ok out, st1, [exit_command])
  else
    (.ok "", st, [])

/-- Modelled from the spec: the delay-factor scaling knob of the transport
layer; commands run in abstract delay units scaled by the session-wide global
delay factor. -/
def select_delay_factor (sess : Session) (delay_factor : Nat) : Nat :=
  max sess.global_delay_factor delay_factor

/-! ## Juniper mode operations

Direct translations from `netmiko/juniper/juniper.py`. -/

/-- `JuniperBase.check_config_mode` (line 75): the base textual test with
check string `"]"`. -/
def Juniper.check_config_mode (d : Device σ) (st : σ) : Bool :=
  base_check_config_mode d st "]"

/-- `JuniperBase.config_mode` (lines 79-88): the base enter operation with
command `"configure"`; its pattern argument has no observable effect in
this model. -/
def Juniper.config_mode (d : Device σ) (st : σ) :
    Except String (String × σ) × List String :=
  base_config_mode d st "configure" "]"

/-- `JuniperBase.exit_config_mode` (lines 90-103): when in config mode,
send the exit command; if the response contains the uncommitted-changes
prompt, send `"yes"` once more; then re-check the mode and raise if the
session still reports config mode.  Returns the accumulated output (or the
error), the final device state and the list of channel writes. -/
def Juniper.exit_config_mode (d : Device σ) (st : σ) (exit_config : String) :
    Except NetmikoError String × σ × List String :=
  if Juniper.check_config_mode d st then
    match d.send st exit_config with
    | .error e => (.error (.channel e), st, [exit_config])
    | .ok (out, st1) =>
      if containsSubstr out "Exit with uncommitted changes?" then
        match d.send st1 "yes" with
        | .error e => (.error (.channel e), st1, [exit_config, "yes"])
        | .ok (out2, st2) =>
          if Juniper.check_config_mode d st2 then
            (.error (.modeTransition "Failed to exit configuration mode"), st2,
              [exit_config, "yes"])
          else
            (.ok (out ++ out2), st2, [exit_config, "yes"])
      else
        if Juniper.check_config_mode d st1 then
          (.error (.modeTransition "Failed to exit configuration mode"), st1, [exit_config])
        else
          (.ok out, st1, [exit_config])
  else
    (.ok "", st, [])

/-! ## Juniper commit protocol

Direct translation of `JuniperBase.commit` (lines 105-199).  The outcome
records the result, the session (the mutated `self`), the final device
state and the channel writes; each write is paired with the value the
fast-mode flag held when it was issued. -/

/-- The outcome of a `commit` call. -/
structure CommitOut (σ : Type) where
  result : Except NetmikoError String
  sess : Session
  dev : σ
  writes : List (String × Bool)

/-- Python truthiness of the `confirm_delay` argument: an absent value and
the integer `0` are both falsy. -/
def cdTruthy : Option Nat → Bool
  | none => false
  | some n => n != 0

/-- Lines 151-172 of `JuniperBase.commit`: the command string, selected by
first match, with the quote-wrapped comment and `and-quit` appended in that
order.  (The double-quote validation of line 166-167 stays in `commit`
itself; this function is only evaluated when it passes.) -/
def commitCommandString (confirm : Bool) (confirm_delay : Option Nat) (check : Bool)
    (comment : String) (and_quit : Bool) : String :=
  let base :=
    if check then "commit check"
    else if confirm then
      if cdTruthy confirm_delay then "commit confirmed " ++ toString (confirm_delay.getD 0)
      else "commit confirmed"
    else "commit"
  let withComment :=
    if comment != "" then base ++ " comment \"" ++ comment ++ "\"" else base
  if and_quit then withComment ++ " and-quit" else withComment

/-- Lines 151-162 of `JuniperBase.commit`: the success marker of the
selected variant. -/
def commitMarker (confirm check : Bool) : String :=
  if check then "configuration check succeeds"
  else if confirm then "commit confirmed will be automatically rolled back in"
  else "commit complete"

/-- `JuniperBase.commit` (lines 105-199).  Validation happens before any
channel interaction; the command string and success marker are selected by
first match; a non-empty comment is quote-wrapped and appended, then
`and-quit`; config mode is entered if necessary; the command is sent with
the fast-mode flag disabled and restored afterwards (the `try/finally`);
finally the output must contain the marker.  The `expect_string` chosen at
lines 178-181 has no observable effect in this model and is omitted. -/
def Juniper.commit (sess : Session) (d : Device σ) (st : σ)
    (confirm : Bool) (confirm_delay : Option Nat) (check : Bool)
    (comment : String) (and_quit : Bool) (delay_factor : Nat) :
    CommitOut σ :=
  let delay_factor := select_delay_factor sess delay_factor
  -- lines 139-141: commit is very slow, so fast mode keeps the factor at 1
  let _delay_factor :=
    if delay_factor < 1 && !sess.legacy_mode && sess.fast_cli then 1 else delay_factor
  if check && (confirm || cdTruthy confirm_delay || comment != "") then
    ⟨.error (.invalidCommitArguments "Invalid arguments supplied with commit check"),
      sess, st, []⟩
  else if cdTruthy confirm_delay && !confirm then
    ⟨.error (.invalidCommitArguments
        "Invalid arguments supplied to commit method both confirm and check"),
      sess, st, []⟩
  else
    -- lines 164-167: a non-empty comment may not contain a double quote
    if comment != "" && containsSubstr comment "\"" then
      ⟨.error (.invalidCommitArguments "Invalid comment contains double quote"),
        sess, st, []⟩
    else
      -- lines 151-172: select the command string and marker
      let command_string :=
        commitCommandString confirm confirm_delay check comment and_quit
      let commit_marker := commitMarker confirm check
      -- line 175: enter config mode if necessary
      match Juniper.config_mode d st with
      | (.error e, w) =>
        ⟨.error (.channel e), sess, st, w.map fun c => (c, sess.fast_cli)⟩
      | (.ok (out0, st1), w) =>
        let w0 := w.map fun c => (c, sess.fast_cli)
        -- lines 183-194: send under fast_cli = false, restore in finally
        let fast_cli_state := sess.fast_cli
        let sess1 : Session :=
          { fast_cli := false, legacy_mode := sess.legacy_mode,
            base_prompt := sess.base_prompt,
            global_delay_factor := sess.global_delay_factor }
        let sess2 : Session :=
          { fast_cli := fast_cli_state, legacy_mode := sess1.legacy_mode,
            base_prompt := sess1.base_prompt,
            global_delay_factor := sess1.global_delay_factor }
        match d.send st1 command_string with
        | .error e =>
          ⟨.error (.channel e), sess2, st1, w0 ++ [(command_string, sess1.fast_cli)]⟩
        | .ok (out1, st2) =>
          let output := out0 ++ out1
          if !containsSubstr output commit_marker then
            ⟨.error (.commitFailed
                ("Commit failed with the following errors:\n\n" ++ output)),
              sess2, st2, w0 ++ [(command_string, sess1.fast_cli)]⟩
          else
            ⟨.ok output, sess2, st2, w0 ++ [(command_string, sess1.fast_cli)]⟩

/-! ## HP Comware mode operations

Direct translations from `netmiko/hp/hp_comware.py` (lines 37-92).  Each
operation delegates to the base state machine; the dialect has no separate
privileged tier, so the enable-tier operations alias the config-mode
operations. -/

/-- `HPComwareBase.check_config_mode` (lines 48-50). -/
def HPComware.check_config_mode (d : Device σ) (st : σ) (check_string : String) : Bool :=
  base_check_config_mode d st check_string

/-- `HPComwareBase.config_mode` (lines 37-42); the pattern argument has no
observable effect in this model. -/
def HPComware.config_mode (d : Device σ) (st : σ) (config_command : String) :
    Except String (String × σ) × List String :=
  base_config_mode d st config_command "]"

/-- `HPComwareBase.exit_config_mode` (lines 44-46). -/
def HPComware.exit_config_mode (d : Device σ) (st : σ) (exit_config : String) :
    Except NetmikoError String × σ × List String :=
  base_exit_config_mode d st exit_config "]"

/-- `HPComwareBase.enable` (lines 82-84): enable mode on Comware is
system-view. -/
def HPComware.enable (d : Device σ) (st : σ) (cmd : String) :
    Except String (String × σ) × List String :=
  HPComware.config_mode d st cmd

/-- `HPComwareBase.exit_enable_mode` (lines 86-88). -/
def HPComware.exit_enable_mode (d : Device σ) (st : σ) (exit_command : String) :
    Except NetmikoError String × σ × List String :=
  HPComware.exit_config_mode d st exit_command

/-- `HPComwareBase.check_enable_mode` (lines 90-92). -/
def HPComware.check_enable_mode (d : Device σ) (st : σ) (check_string : String) : Bool :=
  HPComware.check_config_mode d st check_string

/-! ## Concrete devices used to witness the theorems -/

/-- A session with fast mode on. -/
def sessDefault : Session := ⟨true, false, "router", 1⟩

/-- A device whose prompt always reports config mode and whose responses
always contain the plain-commit marker. -/
def devAccept : Device Nat :=
  ⟨fun st _ => .ok ("commit complete", st), fun _ => "router]"⟩

/-- A device whose prompt always reports config mode and whose responses
always contain the commit-check marker. -/
def devCheckOk : Device Nat :=
  ⟨fun st _ => .ok ("configuration check succeeds", st), fun _ => "router]"⟩

/-- A device sitting at the operational prompt. -/
def devOper : Device Nat :=
  ⟨fun st _ => .ok ("ok", st), fun _ => "router>"⟩

/-- A device whose prompt always reports config mode and whose responses
never contain any commit marker. -/
def devReject : Device Nat :=
  ⟨fun st _ => .ok ("candidate config invalid", st), fun _ => "router]"⟩

/-- A device that answers the exit command with the uncommitted-changes
question, leaves config mode once `"yes"` is confirmed, and reports the
operational prompt from then on. -/
def devUncommitted : Device Nat :=
  ⟨fun st cmd =>
    if st == 0 && cmd == "exit configuration-mode" then
      .ok ("Exit with uncommitted changes?", 1)
    else if st == 1 && cmd == "yes" then
      .ok ("exiting configuration mode", 2)
    else
      .ok ("", st),
   fun st => if st == 2 then "router>" else "router]"⟩

/-! ## Claim C5 (response sanitizer on the concrete input of the spec)

The example input of the spec ends in a line terminator, so the last element of
the split is the empty line, which matches none of the shapes: the code
returns the input unchanged, contradicting the claimed result.  The
claimed result is obtained exactly when the trailing terminator is absent. -/

/-- C5 (counterexample): `strip_context_items` applied to
`"set cli complete-on-space off\n[edit]\n"` does not return
`"set cli complete-on-space off\n"`; it returns the input unchanged,
because the final split element is the empty line, which matches no
context shape. -/
theorem strip_context_items_trailing_return_cex :
    strip_context_items "set cli complete-on-space off\n[edit]\n" ≠
      "set cli complete-on-space off\n" ∧
    strip_context_items "set cli complete-on-space off\n[edit]\n" =
      "set cli complete-on-space off\n[edit]\n" := by
  constructor
  · decide
  · decide

/-- C5 (amended): without the trailing line terminator, the `[edit]` line
is the final split element, it matches the edit shape, and it is dropped:
`strip_context_items "set cli complete-on-space off\n[edit]"` returns
`"set cli complete-on-space off"`. -/
theorem strip_context_items_edit_line :
    strip_context_items "set cli complete-on-space off\n[edit]" =
      "set cli complete-on-space off" := by
  decide

/-! ## Claim C9 (HP Comware enable tier aliases config mode) -/

/-- C9: for the HP Comware dialect, `enable` with its default
`"system-view"` command is extensionally the config-mode enter operation,
`check_enable_mode` with check string `"]"` is extensionally
`check_config_mode`, and `exit_enable_mode` with its default `"return"`
command is extensionally `exit_config_mode`, on every device and state. -/
theorem hp_enable_aliases_config_mode (σ : Type) (d : Device σ) (st : σ) :
    HPComware.enable d st "system-view" = HPComware.config_mode d st "system-view" ∧
    HPComware.check_enable_mode d st "]" = HPComware.check_config_mode d st "]" ∧
    HPComware.exit_enable_mode d st "return" = HPComware.exit_config_mode d st "return" :=
  ⟨rfl, rfl, rfl⟩

/-! ## Claim C10 (exit_config_mode outside config mode) -/

/-- C10: when the session does not report config mode,
`exit_config_mode` issues no channel write, leaves the device state
unchanged and returns the empty string without error. -/
theorem exit_config_mode_noop (d : Device σ) (st : σ) (exit_config : String)
    (h : Juniper.check_config_mode d st = false) :
    Juniper.exit_config_mode d st exit_config = (.ok "", st, []) := by
  unfold Juniper.exit_config_mode
  rw [h]
  simp

/-- Witness for C10 at a device sitting at the operational prompt. -/
theorem exit_config_mode_noop_witness :
    Juniper.check_config_mode devOper 0 = false ∧
    Juniper.exit_config_mode devOper 0 "exit configuration-mode" = (.ok "", 0, []) :=
  ⟨by decide, exit_config_mode_noop devOper 0 "exit configuration-mode" (by decide)⟩

/-! ## Claim C4 (exit_config_mode and the uncommitted-changes prompt) -/

/-- C4: in config mode, `exit_config_mode` sends the exit command exactly
once; it sends `"yes"` exactly once more if and only if the response
contains the uncommitted-changes prompt; it then re-checks the mode and
raises the mode-transition error exactly when the session still reports
config mode. -/
theorem exit_config_mode_uncommitted (d : Device σ) (st st1 st2 : σ)
    (out1 out2 : String)
    (h0 : Juniper.check_config_mode d st = true)
    (h1 : d.send st "exit configuration-mode" = .ok (out1, st1))
    (h2 : d.send st1 "yes" = .ok (out2, st2)) :
    (containsSubstr out1 "Exit with uncommitted changes?" = true →
      (Juniper.exit_config_mode d st "exit configuration-mode").2.2 =
        ["exit configuration-mode", "yes"] ∧
      (isModeTransition (Juniper.exit_config_mode d st "exit configuration-mode").1 = true ↔
        Juniper.check_config_mode d st2 = true)) ∧
    (containsSubstr out1 "Exit with uncommitted changes?" = false →
      (Juniper.exit_config_mode d st "exit configuration-mode").2.2 =
        ["exit configuration-mode"] ∧
      (isModeTransition (Juniper.exit_config_mode d st "exit configuration-mode").1 = true ↔
        Juniper.check_config_mode d st1 = true)) := by
  unfold Juniper.exit_config_mode
  constructor
  · intro hu
    cases hc : Juniper.check_config_mode d st2 <;>
      simp [h0, h1, h2, hu, hc, isModeTransition]
  · intro hu
    cases hc : Juniper.check_config_mode d st1 <;>
      simp [h0, h1, hu, hc, isModeTransition]

/-- Witness for C4 on a device that asks the uncommitted-changes question
once and leaves config mode after the single `"yes"`. -/
theorem exit_config_mode_uncommitted_witness :
    Juniper.check_config_mode devUncommitted 0 = true ∧
    devUncommitted.send 0 "exit configuration-mode" =
      .ok ("Exit with uncommitted changes?", 1) ∧
    devUncommitted.send 1 "yes" = .ok ("exiting configuration mode", 2) ∧
    ((containsSubstr "Exit with uncommitted changes?" "Exit with uncommitted changes?" = true →
      (Juniper.exit_config_mode devUncommitted 0 "exit configuration-mode").2.2 =
        ["exit configuration-mode", "yes"] ∧
      (isModeTransition
          (Juniper.exit_config_mode devUncommitted 0 "exit configuration-mode").1 = true ↔
        Juniper.check_config_mode devUncommitted 2 = true)) ∧
    (containsSubstr "Exit with uncommitted changes?" "Exit with uncommitted changes?" = false →
      (Juniper.exit_config_mode devUncommitted 0 "exit configuration-mode").2.2 =
        ["exit configuration-mode"] ∧
      (isModeTransition
          (Juniper.exit_config_mode devUncommitted 0 "exit configuration-mode").1 = true ↔
        Juniper.check_config_mode devUncommitted 1 = true))) :=
  ⟨by decide, rfl, rfl,
    exit_config_mode_uncommitted devUncommitted 0 1 2
      "Exit with uncommitted changes?" "exiting configuration mode"
      (by decide) rfl rfl⟩

/-! ## Claim C1 (commit argument validation, pre-I/O) -/

/-- An empty comment cannot contain a double quote. -/
theorem containsSubstr_quote_ne_empty (comment : String)
    (h : containsSubstr comment "\"" = true) : comment ≠ "" := by
  intro hc
  rw [hc] at h
  exact absurd h (by decide)

/-- Under the documented domain (`confirm_delay` is an optional positive
int), Python truthiness of `confirm_delay` coincides with it being
supplied. -/
theorem cdTruthy_eq_isSome (confirm_delay : Option Nat)
    (hpos : ∀ n, confirm_delay = some n → 0 < n) :
    (cdTruthy confirm_delay = true ↔ confirm_delay ≠ none) := by
  cases confirm_delay with
  | none => simp [cdTruthy]
  | some n =>
    have hn : n ≠ 0 := Nat.pos_iff_ne_zero.mp (hpos n rfl)
    simp [cdTruthy, hn]

/-- C1: `commit` raises `InvalidCommitArguments` if and only if check is
combined with confirm, a supplied confirm_delay or a non-empty comment, or
confirm_delay is supplied without confirm, or the comment contains a double
quote; and whenever it does, no channel write has happened and the session
and device state are untouched. -/
theorem commit_invalid_arguments_iff (sess : Session) (d : Device σ) (st : σ)
    (confirm : Bool) (confirm_delay : Option Nat) (check : Bool)
    (comment : String) (and_quit : Bool) (delay_factor : Nat)
    (hpos : ∀ n, confirm_delay = some n → 0 < n) :
    (isInvalidCommitArguments
        (Juniper.commit sess d st confirm confirm_delay check comment and_quit
          delay_factor).result = true ↔
      ((check = true ∧ (confirm = true ∨ confirm_delay ≠ none ∨ comment ≠ "")) ∨
        (confirm_delay ≠ none ∧ confirm = false) ∨
        containsSubstr comment "\"" = true)) ∧
    (isInvalidCommitArguments
        (Juniper.commit sess d st confirm confirm_delay check comment and_quit
          delay_factor).result = true →
      (Juniper.commit sess d st confirm confirm_delay check comment and_quit
          delay_factor).writes = [] ∧
      (Juniper.commit sess d st confirm confirm_delay check comment and_quit
          delay_factor).sess = sess ∧
      (Juniper.commit sess d st confirm confirm_delay check comment and_quit
          delay_factor).dev = st) := by
  have hcd := cdTruthy_eq_isSome confirm_delay hpos
  by_cases hA : (check && (confirm || cdTruthy confirm_delay || comment != "")) = true
  · have hRHS : (check = true ∧ (confirm = true ∨ confirm_delay ≠ none ∨ comment ≠ "")) ∨
        (confirm_delay ≠ none ∧ confirm = false) ∨
        containsSubstr comment "\"" = true := by
      rw [Bool.and_eq_true, Bool.or_eq_true, Bool.or_eq_true] at hA
      refine Or.inl ⟨hA.1, ?_⟩
      rcases hA.2 with (h | h) | h
      · exact Or.inl h
      · exact Or.inr (Or.inl (hcd.mp h))
      · exact Or.inr (Or.inr (by simpa using h))
    simp only [Juniper.commit, hA, if_true]
    simp [isInvalidCommitArguments, hRHS]
  · by_cases hB : (cdTruthy confirm_delay && !confirm) = true
    · have hRHS : (check = true ∧ (confirm = true ∨ confirm_delay ≠ none ∨ comment ≠ "")) ∨
          (confirm_delay ≠ none ∧ confirm = false) ∨
          containsSubstr comment "\"" = true := by
        rw [Bool.and_eq_true] at hB
        exact Or.inr (Or.inl ⟨hcd.mp hB.1, by simpa using hB.2⟩)
      simp only [Juniper.commit, hA, hB, if_true, Bool.false_eq_true, if_false]
      simp [isInvalidCommitArguments, hRHS]
    · by_cases hC : (comment != "" && containsSubstr comment "\"") = true
      · have hRHS : (check = true ∧ (confirm = true ∨ confirm_delay ≠ none ∨ comment ≠ "")) ∨
            (confirm_delay ≠ none ∧ confirm = false) ∨
            containsSubstr comment "\"" = true := by
          rw [Bool.and_eq_true] at hC
          exact Or.inr (Or.inr hC.2)
        simp only [Juniper.commit, hA, hB, hC, if_true, Bool.false_eq_true, if_false]
        simp [isInvalidCommitArguments, hRHS]
      · -- no validation error fires: the result is never InvalidCommitArguments
        have hRHS : ¬(((check = true ∧ (confirm = true ∨ confirm_delay ≠ none ∨ comment ≠ "")) ∨
            (confirm_delay ≠ none ∧ confirm = false) ∨
            containsSubstr comment "\"" = true)) := by
          rw [Bool.and_eq_true, Bool.or_eq_true, Bool.or_eq_true] at hA
          rw [Bool.and_eq_true] at hB hC
          rintro (hk | hk | hk)
          · refine hA ⟨hk.1, ?_⟩
            rcases hk.2 with h | h | h
            · exact Or.inl (Or.inl h)
            · exact Or.inl (Or.inr (hcd.mpr h))
            · exact Or.inr (by simpa using h)
          · exact hB ⟨hcd.mpr hk.1, by simp [hk.2]⟩
          · exact hC ⟨by simpa using containsSubstr_quote_ne_empty comment hk, hk⟩
        have hInv : isInvalidCommitArguments
            (Juniper.commit sess d st confirm confirm_delay check comment and_quit
              delay_factor).result = false := by
          simp only [Juniper.commit, hA, hB, hC, Bool.false_eq_true, if_false]
          repeat' split
          all_goals simp [isInvalidCommitArguments]
        constructor
        · rw [hInv]
          simp [hRHS]
        · intro hcontra
          rw [hInv] at hcontra
          exact absurd hcontra (by simp)

/-- Witness for C1 at check combined with confirm on a concrete device. -/
theorem commit_invalid_arguments_iff_witness :
    (∀ n, (none : Option Nat) = some n → 0 < n) ∧
    ((isInvalidCommitArguments
        (Juniper.commit sessDefault devAccept 0 true none true "" false 1).result = true ↔
      ((true = true ∧ (true = true ∨ (none : Option Nat) ≠ none ∨ ("" : String) ≠ "")) ∨
        ((none : Option Nat) ≠ none ∧ true = false) ∨
        containsSubstr "" "\"" = true)) ∧
    (isInvalidCommitArguments
        (Juniper.commit sessDefault devAccept 0 true none true "" false 1).result = true →
      (Juniper.commit sessDefault devAccept 0 true none true "" false 1).writes = [] ∧
      (Juniper.commit sessDefault devAccept 0 true none true "" false 1).sess = sessDefault ∧
      (Juniper.commit sessDefault devAccept 0 true none true "" false 1).dev = 0)) :=
  ⟨fun _ h => absurd h (Option.noConfusion),
    commit_invalid_arguments_iff sessDefault devAccept 0 true none true "" false 1
      fun _ h => absurd h (Option.noConfusion)⟩

/-! ## Claims C2, C3, C8 (commit command selection and post-condition)

For the refinement statements a second pair of definitions follows the
words of the spec (the command-selection table of section 4.4); the theorems
compare the source-translated `Juniper.commit` against them. -/

/-- Follows the words of the spec: command selection by first match — check
selects `commit check`; confirm with a delay selects
`commit confirmed <delay>`; confirm without a delay selects
`commit confirmed`; otherwise `commit`; then a non-empty comment appends
` comment "<text>"` and and_quit appends ` and-quit`, in that order. -/
def specCommandString (confirm : Bool) (confirm_delay : Option Nat) (check : Bool)
    (comment : String) (and_quit : Bool) : String :=
  let base :=
    if check then "commit check"
    else if confirm then
      match confirm_delay with
      | some delay => "commit confirmed " ++ toString delay
      | none => "commit confirmed"
    else "commit"
  let withComment :=
    if comment != "" then base ++ " comment \"" ++ comment ++ "\"" else base
  if and_quit then withComment ++ " and-quit" else withComment

/-- Follows the words of the spec: the success marker of each commit variant. -/
def specMarker (confirm check : Bool) : String :=
  if check then "configuration check succeeds"
  else if confirm then "commit confirmed will be automatically rolled back in"
  else "commit complete"

/-- Appending to the empty string is the identity. -/
theorem empty_append_str (s : String) : "" ++ s = s := by
  cases s
  rfl

/-- When the session already reports config mode, entering config mode is
a no-op. -/
theorem config_mode_inConfig (d : Device σ) (st : σ)
    (h : Juniper.check_config_mode d st = true) :
    Juniper.config_mode d st = (.ok ("", st), []) := by
  unfold Juniper.config_mode base_config_mode
  rw [show base_check_config_mode d st "]" = true from h]
  simp

/-- Under the documented domain of `confirm_delay`, the command string of the
source coincides with the command-selection table of the spec. -/
theorem commitCommandString_eq_spec (confirm : Bool) (confirm_delay : Option Nat)
    (check : Bool) (comment : String) (and_quit : Bool)
    (hpos : ∀ n, confirm_delay = some n → 0 < n) :
    commitCommandString confirm confirm_delay check comment and_quit =
      specCommandString confirm confirm_delay check comment and_quit := by
  cases confirm_delay with
  | none => rfl
  | some n =>
    have hn : (n != 0) = true := by
      simp [Nat.pos_iff_ne_zero.mp (hpos n rfl)]
    simp [commitCommandString, specCommandString, cdTruthy, hn]

/-- The marker selection of the source coincides with the table of the spec. -/
theorem commitMarker_eq_spec (confirm check : Bool) :
    commitMarker confirm check = specMarker confirm check := rfl

/-- Shared evaluation lemma: on a valid argument combination, with the
session already in config mode and the device answering the selected
command with `out`, `commit` performs exactly one channel write — the
spec-selected command, sent with fast mode disabled — and classifies `out`
by the spec-selected marker. -/
theorem commit_valid_run (sess : Session) (d : Device σ) (st st1 : σ) (out : String)
    (confirm : Bool) (confirm_delay : Option Nat) (check : Bool)
    (comment : String) (and_quit : Bool) (delay_factor : Nat)
    (hpos : ∀ n, confirm_delay = some n → 0 < n)
    (hv1 : check = true → confirm = false ∧ confirm_delay = none ∧ comment = "")
    (hv2 : confirm_delay ≠ none → confirm = true)
    (hv3 : containsSubstr comment "\"" = false)
    (hconf : Juniper.check_config_mode d st = true)
    (hsend : d.send st (specCommandString confirm confirm_delay check comment and_quit) =
      .ok (out, st1)) :
    Juniper.commit sess d st confirm confirm_delay check comment and_quit delay_factor =
      ⟨if containsSubstr out (specMarker confirm check) then .ok out
        else .error (.commitFailed ("Commit failed with the following errors:\n\n" ++ out)),
        sess, st1,
        [(specCommandString confirm confirm_delay check comment and_quit, false)]⟩ := by
  have hA : (check && (confirm || cdTruthy confirm_delay || comment != "")) = false := by
    cases check with
    | false => rfl
    | true =>
      obtain ⟨hc, hd, hm⟩ := hv1 rfl
      subst hc; subst hd; subst hm
      simp [cdTruthy]
  have hB : (cdTruthy confirm_delay && !confirm) = false := by
    cases hcd : confirm_delay with
    | none => simp [cdTruthy]
    | some n =>
      have := hv2 (by simp [hcd])
      simp [this]
  have hC : (comment != "" && containsSubstr comment "\"") = false := by
    simp [hv3]
  obtain ⟨f, l, b, g⟩ := sess
  simp only [Juniper.commit, hA, hB, hC, Bool.false_eq_true, if_false,
    commitCommandString_eq_spec confirm confirm_delay check comment and_quit hpos,
    commitMarker_eq_spec, config_mode_inConfig d st hconf]
  simp only [hsend, empty_append_str]
  cases hmk : containsSubstr out (specMarker confirm check) <;> simp [hmk]

/-- C2: on every valid argument combination, with the session in config
mode, the single command `commit` sends is exactly the one given by the
first-match table of the spec with comment and and-quit appended in that order,
and the output is accepted exactly when it contains the marker of the spec for
the selected variant. -/
theorem commit_command_selection (sess : Session) (d : Device σ) (st st1 : σ)
    (out : String) (confirm : Bool) (confirm_delay : Option Nat) (check : Bool)
    (comment : String) (and_quit : Bool) (delay_factor : Nat)
    (hpos : ∀ n, confirm_delay = some n → 0 < n)
    (hv1 : check = true → confirm = false ∧ confirm_delay = none ∧ comment = "")
    (hv2 : confirm_delay ≠ none → confirm = true)
    (hv3 : containsSubstr comment "\"" = false)
    (hconf : Juniper.check_config_mode d st = true)
    (hsend : d.send st (specCommandString confirm confirm_delay check comment and_quit) =
      .ok (out, st1)) :
    (Juniper.commit sess d st confirm confirm_delay check comment and_quit
        delay_factor).writes =
      [(specCommandString confirm confirm_delay check comment and_quit, false)] ∧
    ((Juniper.commit sess d st confirm confirm_delay check comment and_quit
        delay_factor).result = .ok out ↔
      containsSubstr out (specMarker confirm check) = true) := by
  rw [commit_valid_run sess d st st1 out confirm confirm_delay check comment and_quit
    delay_factor hpos hv1 hv2 hv3 hconf hsend]
  refine ⟨rfl, ?_⟩
  cases hmk : containsSubstr out (specMarker confirm check) <;> simp [hmk]

/-- Witness for C2 at the default argument combination on a device that
answers `commit complete`. -/
theorem commit_command_selection_witness :
    (Juniper.commit sessDefault devAccept 0 false none false "" false 1).writes =
      [(specCommandString false none false "" false, false)] ∧
    ((Juniper.commit sessDefault devAccept 0 false none false "" false 1).result =
        .ok "commit complete" ↔
      containsSubstr "commit complete" (specMarker false false) = true) :=
  commit_command_selection sessDefault devAccept 0 0 "commit complete"
    false none false "" false 1
    (fun _ h => absurd h Option.noConfusion)
    (fun h => absurd h (by decide))
    (fun h => absurd rfl h)
    (by decide) (by decide) rfl

/-! Substring facts used for the C3 error message. -/

/-- Every character list is a prefix of itself. -/
theorem isPrefixChars_self (l : List Char) : isPrefixChars l l = true := by
  induction l with
  | nil => rfl
  | cons c rest ih => simp [isPrefixChars, ih]

/-- A character list occurs as a substring of anything it suffixes. -/
theorem containsSub_append_right (a b : List Char) : containsSub (a ++ b) b = true := by
  induction a with
  | nil =>
    cases b with
    | nil => rfl
    | cons c rest => simp [containsSub, isPrefixChars_self]
  | cons c rest ih => simp [containsSub, ih]

/-- A string contains any of its suffixes. -/
theorem containsSubstr_append_right (a b : String) : containsSubstr (a ++ b) b = true := by
  unfold containsSubstr
  rw [String.data_append]
  exact containsSub_append_right a.data b.data

/-- C3: after the commit command is sent on a valid argument combination,
`commit` returns the collected output exactly when it contains the
marker of the selected variant; otherwise it raises the commit-failure error
and the full collected output is embedded in the error message. -/
theorem commit_marker_postcondition (sess : Session) (d : Device σ) (st st1 : σ)
    (out : String) (confirm : Bool) (confirm_delay : Option Nat) (check : Bool)
    (comment : String) (and_quit : Bool) (delay_factor : Nat)
    (hpos : ∀ n, confirm_delay = some n → 0 < n)
    (hv1 : check = true → confirm = false ∧ confirm_delay = none ∧ comment = "")
    (hv2 : confirm_delay ≠ none → confirm = true)
    (hv3 : containsSubstr comment "\"" = false)
    (hconf : Juniper.check_config_mode d st = true)
    (hsend : ∀ c, d.send st c = .ok (out, st1)) :
    ((Juniper.commit sess d st confirm confirm_delay check comment and_quit
        delay_factor).result = .ok out ↔
      containsSubstr out (specMarker confirm check) = true) ∧
    (containsSubstr out (specMarker confirm check) = false →
      (Juniper.commit sess d st confirm confirm_delay check comment and_quit
          delay_factor).result =
        .error (.commitFailed ("Commit failed with the following errors:\n\n" ++ out)) ∧
      ∀ msg, (Juniper.commit sess d st confirm confirm_delay check comment and_quit
          delay_factor).result = .error (.commitFailed msg) →
        containsSubstr msg out = true) := by
  rw [commit_valid_run sess d st st1 out confirm confirm_delay check comment and_quit
    delay_factor hpos hv1 hv2 hv3 hconf
    (hsend (specCommandString confirm confirm_delay check comment and_quit))]
  cases hmk : containsSubstr out (specMarker confirm check) with
  | false =>
    simp only [hmk, Bool.false_eq_true, if_false]
    refine ⟨by simp, fun _ => ⟨trivial, ?_⟩⟩
    intro msg hmsg
    simp only [Except.error.injEq, NetmikoError.commitFailed.injEq] at hmsg
    rw [← hmsg]
    exact containsSubstr_append_right "Commit failed with the following errors:\n\n" out
  | true =>
    simp [hmk]

/-- Witness for C3 at the default argument combination on a device that
never answers the plain-commit marker: the commit fails. -/
theorem commit_marker_postcondition_witness :
    ((Juniper.commit sessDefault devReject 0 false none false "" false 1).result =
        .ok "candidate config invalid" ↔
      containsSubstr "candidate config invalid" (specMarker false false) = true) ∧
    (containsSubstr "candidate config invalid" (specMarker false false) = false →
      (Juniper.commit sessDefault devReject 0 false none false "" false 1).result =
        .error (.commitFailed
          ("Commit failed with the following errors:\n\n" ++ "candidate config invalid")) ∧
      ∀ msg, (Juniper.commit sessDefault devReject 0 false none false "" false 1).result =
          .error (.commitFailed msg) →
        containsSubstr msg "candidate config invalid" = true) :=
  commit_marker_postcondition sessDefault devReject 0 0 "candidate config invalid"
    false none false "" false 1
    (fun _ h => absurd h Option.noConfusion)
    (fun h => absurd h (by decide))
    (fun h => absurd rfl h)
    (by decide) (by decide) (fun _ => rfl)

/-- C8: `check` combined with `and_quit` passes validation: the command
sent is `commit check and-quit` and the output is accepted exactly when it
contains `configuration check succeeds`. -/
theorem commit_check_and_quit_permitted (sess : Session) (d : Device σ) (st st1 : σ)
    (out : String)
    (hconf : Juniper.check_config_mode d st = true)
    (hsend : d.send st "commit check and-quit" = .ok (out, st1)) :
    isInvalidCommitArguments
      (Juniper.commit sess d st false none true "" true 1).result = false ∧
    (Juniper.commit sess d st false none true "" true 1).writes =
      [("commit check and-quit", false)] ∧
    ((Juniper.commit sess d st false none true "" true 1).result = .ok out ↔
      containsSubstr out "configuration check succeeds" = true) := by
  have hcmd : specCommandString false none true "" true = "commit check and-quit" := by
    decide
  have hms : specMarker false true = "configuration check succeeds" := rfl
  rw [commit_valid_run sess d st st1 out false none true "" true 1
    (fun _ h => absurd h Option.noConfusion)
    (fun _ => ⟨rfl, rfl, rfl⟩)
    (fun h => absurd rfl h)
    (by decide) hconf (by rw [hcmd]; exact hsend)]
  rw [hcmd, hms]
  cases hmk : containsSubstr out "configuration check succeeds" <;>
    simp [hmk, isInvalidCommitArguments]

/-- Witness for C8 on a device that answers the check marker. -/
theorem commit_check_and_quit_permitted_witness :
    isInvalidCommitArguments
      (Juniper.commit sessDefault devCheckOk 0 false none true "" true 1).result = false ∧
    (Juniper.commit sessDefault devCheckOk 0 false none true "" true 1).writes =
      [("commit check and-quit", false)] ∧
    ((Juniper.commit sessDefault devCheckOk 0 false none true "" true 1).result =
        .ok "configuration check succeeds" ↔
      containsSubstr "configuration check succeeds" "configuration check succeeds" = true) :=
  commit_check_and_quit_permitted sessDefault devCheckOk 0 0
    "configuration check succeeds" (by decide) rfl

/-! ## Claim C7 (fast-mode flag discipline of commit) -/

/-- Entering config mode writes nothing or exactly the config command. -/
theorem config_mode_writes (d : Device σ) (st : σ) :
    (Juniper.config_mode d st).2 = [] ∨ (Juniper.config_mode d st).2 = ["configure"] := by
  unfold Juniper.config_mode base_config_mode
  by_cases h : base_check_config_mode d st "]" = true
  · rw [if_pos h]
    exact Or.inl rfl
  · rw [if_neg h]
    cases hs : d.send st "configure" with
    | error e => exact Or.inr rfl
    | ok p => exact Or.inr rfl

/-- C7: on every exit path of `commit` — validation error, config-mode
failure, channel exception while sending, commit failure, or normal return
— the fast-mode flag of the session ends up exactly as it was before the call;
and every channel write other than the config-mode entry `configure` is
issued with the fast-mode flag disabled. -/
theorem commit_fast_cli_restored (sess : Session) (d : Device σ) (st : σ)
    (confirm : Bool) (confirm_delay : Option Nat) (check : Bool)
    (comment : String) (and_quit : Bool) (delay_factor : Nat) :
    (Juniper.commit sess d st confirm confirm_delay check comment and_quit
        delay_factor).sess.fast_cli = sess.fast_cli ∧
    ∀ w ∈ (Juniper.commit sess d st confirm confirm_delay check comment and_quit
        delay_factor).writes, w.1 = "configure" ∨ w.2 = false := by
  have hw := config_mode_writes d st
  by_cases hA : (check && (confirm || cdTruthy confirm_delay || comment != "")) = true
  · simp [Juniper.commit, hA]
  · by_cases hB : (cdTruthy confirm_delay && !confirm) = true
    · simp [Juniper.commit, hA, hB]
    · by_cases hC : (comment != "" && containsSubstr comment "\"") = true
      · simp [Juniper.commit, hA, hB, hC]
      · rcases hcm : Juniper.config_mode d st with ⟨res, w0⟩
        rw [hcm] at hw
        simp only at hw
        have hmem : ∀ w ∈ w0.map (fun c => (c, sess.fast_cli)),
            Prod.fst w = "configure" ∨ Prod.snd w = false := by
          intro w hwm
          rcases hw with h0 | h0 <;> subst h0 <;> simp at hwm
          rw [hwm]
          exact Or.inl rfl
        simp only [Juniper.commit, hA, hB, hC, Bool.false_eq_true, if_false, hcm]
        cases res with
        | error e =>
          refine ⟨rfl, ?_⟩
          simpa using hmem
        | ok p =>
          obtain ⟨out0, st1⟩ := p
          cases hs : d.send st1
              (commitCommandString confirm confirm_delay check comment and_quit) with
          | error e =>
            simp only [hs]
            refine ⟨by simp, ?_⟩
            intro w hwm
            rw [List.mem_append] at hwm
            rcases hwm with hwm | hwm
            · exact hmem w hwm
            · rw [List.mem_singleton] at hwm
              rw [hwm]
              exact Or.inr rfl
          | ok q =>
            obtain ⟨out1, st2⟩ := q
            simp only [hs]
            cases hmk : containsSubstr (out0 ++ out1)
                (commitMarker confirm check) <;>
              · simp only [hmk, Bool.not_false, Bool.not_true, Bool.false_eq_true,
                  if_false, if_true]
                refine ⟨by simp, ?_⟩
                intro w hwm
                rw [List.mem_append] at hwm
                rcases hwm with hwm | hwm
                · exact hmem w hwm
                · rw [List.mem_singleton] at hwm
                  rw [hwm]
                  exact Or.inr rfl

/-- Witness for C7 at a concrete session with fast mode on. -/
theorem commit_fast_cli_restored_witness :
    (Juniper.commit sessDefault devAccept 0 false none false "" false 1).sess.fast_cli =
      sessDefault.fast_cli ∧
    ∀ w ∈ (Juniper.commit sessDefault devAccept 0 false none false "" false 1).writes,
      w.1 = "configure" ∨ w.2 = false :=
  commit_fast_cli_restored sessDefault devAccept 0 false none false "" false 1

/-! ## Claim C6 (the sanitizer touches only the final split element)

Round-trip lemmas between `splitOnRet` and `joinRet` establish that when
the final element is dropped, the result is literally the input truncated
at its final line terminator, and the interior lines survive verbatim. -/

/-- Unfolding `splitOnRet` on a cons cell once the split of the tail is known. -/
theorem splitOnRet_cons_eq (c : Char) (rest hd : List Char) (tl : List (List Char))
    (h : splitOnRet rest = hd :: tl) :
    splitOnRet (c :: rest) =
      if c == '\n' then [] :: hd :: tl else (c :: hd) :: tl := by
  unfold splitOnRet
  rw [h]

/-- `splitOnRet` never returns the empty list. -/
theorem splitOnRet_ne_nil (l : List Char) : splitOnRet l ≠ [] := by
  cases l with
  | nil => simp [splitOnRet]
  | cons c rest =>
    cases h : splitOnRet rest with
    | nil =>
      unfold splitOnRet
      rw [h]
      simp
    | cons hd tl =>
      rw [splitOnRet_cons_eq c rest hd tl h]
      by_cases hc : c = '\n' <;> simp [hc]

/-- Unfolding `joinRet` on a two-or-more element list. -/
theorem joinRet_cons_cons (a b : List Char) (ls : List (List Char)) :
    joinRet (a :: b :: ls) = a ++ '\n' :: joinRet (b :: ls) := rfl

/-- Joining the split segments restores the input. -/
theorem joinRet_splitOnRet (l : List Char) : joinRet (splitOnRet l) = l := by
  induction l with
  | nil => rfl
  | cons c rest ih =>
    cases h : splitOnRet rest with
    | nil => exact absurd h (splitOnRet_ne_nil rest)
    | cons hd tl =>
      rw [h] at ih
      rw [splitOnRet_cons_eq c rest hd tl h]
      by_cases hc : c = '\n'
      · have hcb : (c == '\n') = true := by simpa using hc
        rw [if_pos hcb, joinRet_cons_cons]
        simp [ih, hc]
      · have hcb : ¬((c == '\n') = true) := by simpa using hc
        rw [if_neg hcb]
        cases tl with
        | nil => simpa [joinRet] using congrArg (c :: ·) ih
        | cons t ts =>
          rw [joinRet_cons_cons] at ih ⊢
          rw [← ih]
          simp

/-- No split segment contains the line terminator. -/
theorem splitOnRet_no_ret (l : List Char) : ∀ p ∈ splitOnRet l, '\n' ∉ p := by
  induction l with
  | nil =>
    intro p hp
    simp [splitOnRet] at hp
    simp [hp]
  | cons c rest ih =>
    intro p hp
    cases h : splitOnRet rest with
    | nil => exact absurd h (splitOnRet_ne_nil rest)
    | cons hd tl =>
      rw [h] at ih
      rw [splitOnRet_cons_eq c rest hd tl h] at hp
      by_cases hc : c = '\n'
      · have hcb : (c == '\n') = true := by simpa using hc
        rw [if_pos hcb] at hp
        rcases List.mem_cons.mp hp with hp | hp
        · simp [hp]
        · exact ih p hp
      · have hcb : ¬((c == '\n') = true) := by simpa using hc
        rw [if_neg hcb] at hp
        rcases List.mem_cons.mp hp with hp | hp
        · subst hp
          intro hmem
          rcases List.mem_cons.mp hmem with he | he
          · exact hc he.symm
          · exact ih hd (List.mem_cons_self hd tl) he
        · exact ih p (List.mem_cons_of_mem hd hp)

/-- A terminator-free list splits into itself alone. -/
theorem splitOnRet_of_no_ret (p : List Char) (h : '\n' ∉ p) : splitOnRet p = [p] := by
  induction p with
  | nil => rfl
  | cons c rest ih =>
    have hc : c ≠ '\n' := fun he => h (he ▸ List.mem_cons_self c rest)
    have hrest : '\n' ∉ rest := fun hm => h (List.mem_cons_of_mem c hm)
    have hcb : ¬((c == '\n') = true) := by simpa using fun he => hc he
    rw [splitOnRet_cons_eq c rest rest [] (ih hrest), if_neg hcb]

/-- Splitting after a terminator-free head segment peels it off. -/
theorem splitOnRet_append_ret (p m : List Char) (h : '\n' ∉ p) :
    splitOnRet (p ++ '\n' :: m) = p :: splitOnRet m := by
  induction p with
  | nil =>
    cases hm : splitOnRet m with
    | nil => exact absurd hm (splitOnRet_ne_nil m)
    | cons hd tl =>
      show splitOnRet ('\n' :: m) = [] :: hd :: tl
      rw [splitOnRet_cons_eq '\n' m hd tl hm,
        if_pos (show (('\n' == '\n') = true) by decide)]
  | cons c rest ih =>
    have hc : c ≠ '\n' := fun he => h (he ▸ List.mem_cons_self c rest)
    have hrest : '\n' ∉ rest := fun hm => h (List.mem_cons_of_mem c hm)
    have hcb : ¬((c == '\n') = true) := by simpa using fun he => hc he
    show splitOnRet (c :: (rest ++ '\n' :: m)) = (c :: rest) :: splitOnRet m
    rw [splitOnRet_cons_eq c (rest ++ '\n' :: m) rest (splitOnRet m) (ih hrest),
      if_neg hcb]

/-- Splitting the join of terminator-free segments restores them. -/
theorem splitOnRet_joinRet (ps : List (List Char)) (hne : ps ≠ [])
    (hfree : ∀ p ∈ ps, '\n' ∉ p) : splitOnRet (joinRet ps) = ps := by
  induction ps with
  | nil => exact absurd rfl hne
  | cons p ps ih =>
    cases ps with
    | nil => exact splitOnRet_of_no_ret p (hfree p (List.mem_cons_self p []))
    | cons q qs =>
      rw [joinRet_cons_cons,
        splitOnRet_append_ret p (joinRet (q :: qs))
          (hfree p (List.mem_cons_self p (q :: qs))),
        ih (by simp) (fun r hr => hfree r (List.mem_cons_of_mem p hr))]

/-- Joining with one extra final segment appends it after a terminator. -/
theorem joinRet_append_single (ps : List (List Char)) (q : List Char) (h : ps ≠ []) :
    joinRet (ps ++ [q]) = joinRet ps ++ '\n' :: q := by
  induction ps with
  | nil => exact absurd rfl h
  | cons p ps ih =>
    cases ps with
    | nil => simp [joinRet_cons_cons, joinRet]
    | cons r rs =>
      rw [List.cons_append, List.cons_append, joinRet_cons_cons, ← List.cons_append,
        ih (by simp), joinRet_cons_cons]
      simp

/-- `strip_context_items` written through the last-line test. -/
def lastLineContextItem (a_string : String) : Bool :=
  strings_to_strip.any fun p =>
    searchWild ((splitOnRet a_string.data).getLastD []) p.1.data p.2.data

/-- The sanitizer either keeps the input or drops the final segment. -/
theorem strip_context_items_eq (s : String) :
    strip_context_items s =
      if lastLineContextItem s = true then
        String.mk (joinRet (splitOnRet s.data).dropLast)
      else s := rfl

/-- C6: `strip_context_items` inspects only the final split element: when
that element matches no context shape the function is the identity; when
it matches one, the result is the input truncated at its final line
terminator (or the empty string for a single-element split), and the
interior lines are recovered verbatim by splitting the result. -/
theorem strip_context_items_last_line_only (s : String) :
    (lastLineContextItem s = false → strip_context_items s = s) ∧
    (lastLineContextItem s = true →
      ((splitOnRet s.data).length = 1 →
        (strip_context_items s).data = [] ∧
        s.data = (splitOnRet s.data).getLastD []) ∧
      (2 ≤ (splitOnRet s.data).length →
        s.data = (strip_context_items s).data ++ '\n' :: (splitOnRet s.data).getLastD [] ∧
        splitOnRet (strip_context_items s).data = (splitOnRet s.data).dropLast)) := by
  constructor
  · intro h
    rw [strip_context_items_eq, h]
    simp
  · intro h
    rw [strip_context_items_eq, h]
    simp only [if_true]
    constructor
    · intro hlen
      obtain ⟨p, hp⟩ := List.length_eq_one.mp hlen
      rw [hp]
      refine ⟨rfl, ?_⟩
      have := joinRet_splitOnRet s.data
      rw [hp] at this
      simpa [joinRet, List.getLastD] using this.symm
    · intro hlen
      have hfree := splitOnRet_no_ret s.data
      have hjoin := joinRet_splitOnRet s.data
      rcases List.eq_nil_or_concat (splitOnRet s.data) with hnil | ⟨ps, q, hps⟩
      · exact absurd hnil (splitOnRet_ne_nil s.data)
      · rw [List.concat_eq_append] at hps
        have hpsne : ps ≠ [] := by
          intro hcon
          rw [hps, hcon] at hlen
          simp at hlen
        have hfreeDrop : ∀ p ∈ ps, '\n' ∉ p := fun p hp =>
          hfree p (by rw [hps]; exact List.mem_append_left _ hp)
        have hjoin2 : joinRet ps ++ '\n' :: q = s.data := by
          rw [← hjoin, hps, joinRet_append_single ps q hpsne]
        have hdrop : (splitOnRet s.data).dropLast = ps := by
          rw [hps, List.dropLast_concat]
        have hlastD : (splitOnRet s.data).getLastD [] = q := by
          rw [hps, List.getLastD_concat]
        rw [hdrop, hlastD]
        constructor
        · exact hjoin2.symm
        · exact splitOnRet_joinRet ps hpsne hfreeDrop

/-- Witness for C6 at a concrete two-line output ending in an edit marker. -/
theorem strip_context_items_last_line_only_witness :
    (lastLineContextItem "foo\n[edit]" = false →
      strip_context_items "foo\n[edit]" = "foo\n[edit]") ∧
    (lastLineContextItem "foo\n[edit]" = true →
      ((splitOnRet (String.data "foo\n[edit]")).length = 1 →
        (strip_context_items "foo\n[edit]").data = [] ∧
        String.data "foo\n[edit]" = (splitOnRet (String.data "foo\n[edit]")).getLastD []) ∧
      (2 ≤ (splitOnRet (String.data "foo\n[edit]")).length →
        String.data "foo\n[edit]" =
          (strip_context_items "foo\n[edit]").data ++
            '\n' :: (splitOnRet (String.data "foo\n[edit]")).getLastD [] ∧
        splitOnRet (strip_context_items "foo\n[edit]").data =
          (splitOnRet (String.data "foo\n[edit]")).dropLast)) :=
  strip_context_items_last_line_only "foo\n[edit]"

end Netmiko
